import Mathlib

/-!
# Verification of the rust-binance cross-exchange arbitrage core

Shallow embedding of the decision core of the `rust-binance` repository:

* `src/src/depth_price.rs` — `PriceCalculator::calculate_execution_price`,
  `update_market_prices`, `check_and_execute_arbitrage`;
* `src/src/execute_trade.rs` — `execute_trade`;
* `src/src/types.rs` — `TradingState`.

Floating-point values (`f64` in the source) are embedded as `ℚ` for exact
arithmetic, extended with explicit `inf` / `ninf` / `nan` constructors (the
type `FP` below) at the places where the source can divide by zero: the gap
formula `(short - long) / long * 100.0` produces an IEEE-754 infinity or NaN
when `long == 0.0`, and the subsequent comparisons against literal thresholds
observe those values.  Rounding of finite f64 arithmetic is not modelled;
no claim below depends on it.

Shared-state side effects of the source (tokio mutexes, the log file, the
`println!` calls) are embedded by explicit state passing: each operation takes
the state it locks and returns the updated state together with the externally
visible outputs (order-gateway calls, the direction announced by the
`println!` in `check_and_execute_arbitrage`).
-/

set_option autoImplicit false

namespace RustBinance

/-- A subset of IEEE-754 binary64 values sufficient for the expressions of the
source: a finite value (exact, as a rational), the two infinities, and NaN. -/
inductive FP where
  | fin : ℚ → FP
  | inf : FP
  | ninf : FP
  | nan : FP
deriving DecidableEq

/-- IEEE semantics of `x.abs()` on `FP`. -/
def FP.abs : FP → FP
  | FP.fin q => FP.fin |q|
  | FP.inf => FP.inf
  | FP.ninf => FP.inf
  | FP.nan => FP.nan

/-- IEEE semantics of `x - y` on `FP` (needed for `entry_gap - percent_diff`). -/
def FP.sub : FP → FP → FP
  | FP.nan, _ => FP.nan
  | _, FP.nan => FP.nan
  | FP.fin a, FP.fin b => FP.fin (a - b)
  | FP.fin _, FP.inf => FP.ninf
  | FP.fin _, FP.ninf => FP.inf
  | FP.inf, FP.fin _ => FP.inf
  | FP.inf, FP.inf => FP.nan
  | FP.inf, FP.ninf => FP.inf
  | FP.ninf, FP.fin _ => FP.ninf
  | FP.ninf, FP.inf => FP.ninf
  | FP.ninf, FP.ninf => FP.nan

/-- IEEE semantics of `x > c` for a finite literal `c` (NaN compares false). -/
def FP.gtq : FP → ℚ → Bool
  | FP.fin q, c => decide (c < q)
  | FP.inf, _ => true
  | FP.ninf, _ => false
  | FP.nan, _ => false

/-- IEEE semantics of `x < c` for a finite literal `c` (NaN compares false). -/
def FP.ltq : FP → ℚ → Bool
  | FP.fin q, c => decide (q < c)
  | FP.inf, _ => false
  | FP.ninf, _ => true
  | FP.nan, _ => false

/-- IEEE semantics of `x >= c` for a finite literal `c` (NaN compares false). -/
def FP.geq : FP → ℚ → Bool
  | FP.fin q, c => decide (c ≤ q)
  | FP.inf, _ => true
  | FP.ninf, _ => false
  | FP.nan, _ => false

/-- The gap expression `(s - l) / l * 100.0` of the source, evaluated with
IEEE-754 semantics on finite inputs `s`, `l`: exact when `l ≠ 0`, and an
infinity or NaN when `l = 0` (the sign of the numerator `s - l = s` decides
which).  Used by both `execute_trade` (as `percent_diff`) and
`check_and_execute_arbitrage` (as `gap1` / `gap2`). -/
def gapPct (s l : ℚ) : FP :=
  if l = 0 then
    if 0 < s - l then FP.inf
    else if s - l < 0 then FP.ninf
    else FP.nan
  else FP.fin ((s - l) / l * 100)

/-- `DepthAllItem` of `src/src/main.rs`: one order-book level.  The source
stores the venue's strings and parses them at use sites with
`parse::<f64>().unwrap_or(0.0)`; the fields here hold the parse result
(`none` = unparseable string). -/
structure DepthAllItem where
  price : Option ℚ
  vol : Option ℚ
deriving DecidableEq

/-- `opt.parse().unwrap_or(0.0)` of the source: an unparseable field is 0. -/
def parseOr0 : Option ℚ → ℚ
  | some q => q
  | none => 0

/-- The loop body of `PriceCalculator::calculate_execution_price`
(`src/src/depth_price.rs` lines 44-65), accumulating
`(total_cost, total_quantity)` while walking the depth levels.
Note the source computes `remaining_amount / price` only when
`remaining_amount <= price * volume`; with a positive remaining amount this
branch is reached only for `price > 0`, so rational division agrees with f64
division on every path the claims exercise. -/
def calcLoop : List DepthAllItem → ℚ → ℚ → ℚ → ℚ × ℚ
  | [], _, total_cost, total_quantity => (total_cost, total_quantity)
  | item :: rest, remaining_amount, total_cost, total_quantity =>
    let price := parseOr0 item.price
    let volume := parseOr0 item.vol
    let available_quantity :=
      if remaining_amount > price * volume then volume
      else remaining_amount / price
    let total_cost := total_cost + price * available_quantity
    let total_quantity := total_quantity + available_quantity
    let remaining_amount := remaining_amount - price * available_quantity
    if remaining_amount ≤ 0 then (total_cost, total_quantity)
    else calcLoop rest remaining_amount total_cost total_quantity

/-- `PriceCalculator::calculate_execution_price` (`src/src/depth_price.rs`
lines 40-72): VWAP of walking `depth` until `position_size` notional is
filled; `0` when nothing was filled. -/
def calculate_execution_price (depth : List DepthAllItem) (position_size : ℚ) : ℚ :=
  let r := calcLoop depth position_size 0 0
  if r.2 > 0 then r.1 / r.2 else 0

/-- Instrumentation of `calcLoop`: the list of `(price, quantity)` fills the
walk performs, in order.  Used to state which levels are "actually consumed". -/
def calcFills : List DepthAllItem → ℚ → List (ℚ × ℚ)
  | [], _ => []
  | item :: rest, remaining_amount =>
    let price := parseOr0 item.price
    let volume := parseOr0 item.vol
    let available_quantity :=
      if remaining_amount > price * volume then volume
      else remaining_amount / price
    if remaining_amount - price * available_quantity ≤ 0 then
      [(price, available_quantity)]
    else
      (price, available_quantity) :: calcFills rest (remaining_amount - price * available_quantity)

/-- Total cost `Σ price·qty` of a list of fills. -/
def sumCost (l : List (ℚ × ℚ)) : ℚ := (l.map (fun pq => pq.1 * pq.2)).sum

/-- Total quantity `Σ qty` of a list of fills. -/
def sumQty (l : List (ℚ × ℚ)) : ℚ := (l.map (fun pq => pq.2)).sum

/-- Total available value `Σ price·volume` of a depth book (the bound on the
target notional in the spec's VWAP-bounds property). -/
def totalValue (depth : List DepthAllItem) : ℚ :=
  (depth.map (fun i => parseOr0 i.price * parseOr0 i.vol)).sum

/-- The estimator loop exactly as §4.2 of the spec words it: at each level the
fillable quantity is `min (remaining_notional / price) volume`; compare with
`calcLoop`, which is translated from the source. -/
def specEstimateLoop : List DepthAllItem → ℚ → ℚ → ℚ → ℚ × ℚ
  | [], _, cost, filled_qty => (cost, filled_qty)
  | level :: rest, remaining_notional, cost, filled_qty =>
    let price := parseOr0 level.price
    let volume := parseOr0 level.vol
    let fillable := min (remaining_notional / price) volume
    let cost := cost + price * fillable
    let filled_qty := filled_qty + fillable
    let remaining_notional := remaining_notional - price * fillable
    if remaining_notional ≤ 0 then (cost, filled_qty)
    else specEstimateLoop rest remaining_notional cost filled_qty

/-- The estimator as §4.2 of the spec words it (`cost / filled_qty` when
anything was filled, else `0`). -/
def specEstimate (levels : List DepthAllItem) (target_notional : ℚ) : ℚ :=
  let r := specEstimateLoop levels target_notional 0 0
  if r.2 > 0 then r.1 / r.2 else 0

/-- `TradingState` of `src/src/types.rs`.  `entry_gap` is an `FP` because the
source stores the raw f64 gap, which can be infinite when a venue's quote
is zero. -/
structure TradingState where
  is_trading : Bool
  entry_gap : Option FP
  binance_position : Option String
  bitmart_position : Option String
  position_open_time : Option ℕ
deriving DecidableEq

/-- `TradingState::default()` — all fields empty, not trading. -/
def TradingState.default : TradingState := ⟨false, none, none, none, none⟩

/-- One call to the order gateway
(`Order::place_market_order_binance` / `_bitmart`). -/
structure OrderCall where
  venue : String
  symbol : String
  side : String
  qty : ℚ
deriving DecidableEq

/-- `execute_trade` (`src/src/execute_trade.rs` lines 29-157).

Inputs: the two top-of-book prices and the current trading state (the source
locks `shared_state`); `binanceRes` / `bitmartRes` are the success/failure
outcomes of whichever gateway calls the function makes (the source only logs
them — `Ok` is logged, `Err` is printed to stderr — and they influence no
state mutation, which this embedding makes explicit by ignoring them outside
of the returned call list).  Output: the new state and the gateway calls made,
in order. -/
def execute_trade (binance_price bitmart_price : ℚ) (binanceRes bitmartRes : Bool)
    (state : TradingState) : TradingState × List OrderCall :=
  let percent_diff := gapPct binance_price bitmart_price
  if !state.is_trading && (percent_diff.abs.gtq (1/100)) then
    let state' : TradingState :=
      { state with is_trading := true, entry_gap := some percent_diff }
    if percent_diff.gtq (1/100) then
      ({ state' with binance_position := some ("SHORT"), bitmart_position := some ("LONG") },
       [⟨("Binance"), ("XRPUSDT"), ("SELL"), 100⟩, ⟨("Bitmart"), ("XRPUSDT"), ("buy"), 100⟩])
    else if percent_diff.ltq (-(1/100)) then
      ({ state' with binance_position := some ("LONG"), bitmart_position := some ("SHORT") },
       [⟨("Binance"), ("XRPUSDT"), ("BUY"), 100⟩, ⟨("Bitmart"), ("XRPUSDT"), ("sell"), 100⟩])
    else
      (state', [])
  else if state.is_trading then
    match state.entry_gap with
    | some entry_gap =>
      let gap_reduction := (entry_gap.sub percent_diff).abs
      if gap_reduction.geq (1/100) then
        let calls :=
          match state.binance_position, state.bitmart_position with
          | some bp, some mp =>
            (if bp = ("SHORT") then [(⟨("Binance"), ("XRPUSDT"), ("BUY"), 100⟩ : OrderCall)]
             else if bp = ("LONG") then [⟨("Binance"), ("XRPUSDT"), ("SELL"), 100⟩]
             else []) ++
            (if mp = ("SHORT") then [(⟨("Bitmart"), ("XRPUSDT"), ("buy"), 100⟩ : OrderCall)]
             else if mp = ("LONG") then [⟨("Bitmart"), ("XRPUSDT"), ("sell"), 100⟩]
             else [])
          | _, _ => []
        ({ state with is_trading := false, entry_gap := none,
                      binance_position := none, bitmart_position := none }, calls)
      else (state, [])
    | none => (state, [])
  else (state, [])

/-- `MarketPrice` of `src/src/depth_price.rs`. -/
structure MarketPrice where
  long_price : ℚ
  short_price : ℚ
deriving DecidableEq

/-- `PriceCalculator::update_market_prices` (`src/src/depth_price.rs` lines
74-105).  The shared maps are embedded as association lists with
first-match lookup (`HashMap::insert` replacing an entry is modelled by
prepending, since `List.lookup` returns the first match).  Returns
`(binance_prices, bitmart_prices, updated price map)`.  Note the source
derives BitMart quotes only from depth (zero when depth is absent) and the
Binance quotes only from the stored top price via the fixed ±0.05% spread —
the stored "Bitmart" top price is never read here. -/
def update_market_prices (market_depth : List (String × List DepthAllItem))
    (prices : List (String × ℚ)) (position_size : ℚ) :
    MarketPrice × MarketPrice × List (String × ℚ) :=
  let bitmart_asks := (market_depth.lookup ("BitMart_Asks")).getD []
  let bitmart_bids := (market_depth.lookup ("BitMart_Bids")).getD []
  let bitmart_long_price := calculate_execution_price bitmart_asks position_size
  let bitmart_short_price := calculate_execution_price bitmart_bids position_size
  let binance_base_price := (prices.lookup ("Binance")).getD 0
  let binance_long_price := binance_base_price * (10005/10000)
  let binance_short_price := binance_base_price * (9995/10000)
  let prices' := (("Binance_Long"), binance_long_price) ::
                 (("Binance_Short"), binance_short_price) ::
                 (("Bitmart_Long"), bitmart_long_price) ::
                 (("Bitmart_Short"), bitmart_short_price) :: prices
  (⟨binance_long_price, binance_short_price⟩,
   ⟨bitmart_long_price, bitmart_short_price⟩,
   prices')

/-- Which arbitrage direction the `println!` in `check_and_execute_arbitrage`
announces when a branch fires. -/
inductive ArbDirection where
  | binanceShortBitmartLong
  | bitmartShortBinanceLong
deriving DecidableEq

/-- `PriceCalculator::check_and_execute_arbitrage` (`src/src/depth_price.rs`
lines 107-128).  Locks the trading state, recomputes market prices, and
opens a position when a gap exceeds the hard-coded 0.3 threshold; `now`
stands for `Utc::now()`.  Returns the new state and the announced direction
(`none` when no branch fires). -/
def check_and_execute_arbitrage (market_depth : List (String × List DepthAllItem))
    (prices : List (String × ℚ)) (position_size : ℚ)
    (state : TradingState) (now : ℕ) : TradingState × Option ArbDirection :=
  let ump := update_market_prices market_depth prices position_size
  let binance_prices := ump.1
  let bitmart_prices := ump.2.1
  let gap1 := gapPct binance_prices.short_price bitmart_prices.long_price
  let gap2 := gapPct bitmart_prices.short_price binance_prices.long_price
  if gap1.gtq (3/10) && !state.is_trading then
    ({ state with is_trading := true, entry_gap := some gap1,
                  position_open_time := some now },
     some ArbDirection.binanceShortBitmartLong)
  else if gap2.gtq (3/10) && !state.is_trading then
    ({ state with is_trading := true, entry_gap := some gap2,
                  position_open_time := some now },
     some ArbDirection.bitmartShortBinanceLong)
  else (state, none)

/-- States of the shared `TradingState` reachable from `default()` by the two
operations that mutate it: `execute_trade` (driven by price updates) and
`check_and_execute_arbitrage`. -/
inductive Reachable : TradingState → Prop where
  | init : Reachable TradingState.default
  | step_trade (b m : ℚ) (br mr : Bool) {s : TradingState} (h : Reachable s) :
      Reachable (execute_trade b m br mr s).1
  | step_arb (md : List (String × List DepthAllItem)) (p : List (String × ℚ))
      (psize : ℚ) (now : ℕ) {s : TradingState} (h : Reachable s) :
      Reachable (check_and_execute_arbitrage md p psize s now).1

/-! ## Helper lemmas about the VWAP walk -/

theorem sumCost_nil : sumCost [] = 0 := rfl

theorem sumQty_nil : sumQty [] = 0 := rfl

theorem sumCost_cons (pq : ℚ × ℚ) (l : List (ℚ × ℚ)) :
    sumCost (pq :: l) = pq.1 * pq.2 + sumCost l := by
  simp [sumCost]

theorem sumQty_cons (pq : ℚ × ℚ) (l : List (ℚ × ℚ)) :
    sumQty (pq :: l) = pq.2 + sumQty l := by
  simp [sumQty]

theorem sumCost_append (a b : List (ℚ × ℚ)) :
    sumCost (a ++ b) = sumCost a + sumCost b := by
  simp [sumCost]

theorem sumQty_append (a b : List (ℚ × ℚ)) :
    sumQty (a ++ b) = sumQty a + sumQty b := by
  simp [sumQty]

/-- One step of the source's fill-quantity computation:
`if remaining_amount > price * volume { volume } else { remaining_amount / price }`. -/
def fillQty (rem p v : ℚ) : ℚ := if rem > p * v then v else rem / p

theorem calcLoop_cons (item : DepthAllItem) (rest : List DepthAllItem) (rem tc tq : ℚ) :
    calcLoop (item :: rest) rem tc tq =
      (if rem - parseOr0 item.price * fillQty rem (parseOr0 item.price) (parseOr0 item.vol) ≤ 0 then
        (tc + parseOr0 item.price * fillQty rem (parseOr0 item.price) (parseOr0 item.vol),
         tq + fillQty rem (parseOr0 item.price) (parseOr0 item.vol))
       else calcLoop rest
         (rem - parseOr0 item.price * fillQty rem (parseOr0 item.price) (parseOr0 item.vol))
         (tc + parseOr0 item.price * fillQty rem (parseOr0 item.price) (parseOr0 item.vol))
         (tq + fillQty rem (parseOr0 item.price) (parseOr0 item.vol))) := rfl

theorem calcFills_cons (item : DepthAllItem) (rest : List DepthAllItem) (rem : ℚ) :
    calcFills (item :: rest) rem =
      (if rem - parseOr0 item.price * fillQty rem (parseOr0 item.price) (parseOr0 item.vol) ≤ 0 then
        [(parseOr0 item.price, fillQty rem (parseOr0 item.price) (parseOr0 item.vol))]
       else (parseOr0 item.price, fillQty rem (parseOr0 item.price) (parseOr0 item.vol)) ::
         calcFills rest
           (rem - parseOr0 item.price * fillQty rem (parseOr0 item.price) (parseOr0 item.vol))) := rfl

theorem specEstimateLoop_cons (item : DepthAllItem) (rest : List DepthAllItem) (rem tc tq : ℚ) :
    specEstimateLoop (item :: rest) rem tc tq =
      (if rem - parseOr0 item.price * min (rem / parseOr0 item.price) (parseOr0 item.vol) ≤ 0 then
        (tc + parseOr0 item.price * min (rem / parseOr0 item.price) (parseOr0 item.vol),
         tq + min (rem / parseOr0 item.price) (parseOr0 item.vol))
       else specEstimateLoop rest
         (rem - parseOr0 item.price * min (rem / parseOr0 item.price) (parseOr0 item.vol))
         (tc + parseOr0 item.price * min (rem / parseOr0 item.price) (parseOr0 item.vol))
         (tq + min (rem / parseOr0 item.price) (parseOr0 item.vol))) := rfl

/-- `calcLoop` accumulates exactly the cost and quantity of the fills
recorded by `calcFills`. -/
theorem calcLoop_eq_fills (depth : List DepthAllItem) : ∀ rem tc tq : ℚ,
    calcLoop depth rem tc tq =
      (tc + sumCost (calcFills depth rem), tq + sumQty (calcFills depth rem)) := by
  induction depth with
  | nil => intro rem tc tq; simp [calcLoop, calcFills, sumCost, sumQty]
  | cons item rest ih =>
    intro rem tc tq
    rw [calcLoop_cons, calcFills_cons]
    set p := parseOr0 item.price with hp
    set v := parseOr0 item.vol with hv
    set aq : ℚ := fillQty rem p v with haq
    by_cases hbr : rem - p * aq ≤ 0
    · simp only [if_pos hbr, sumCost_cons, sumCost_nil, sumQty_cons, sumQty_nil,
        Prod.mk.injEq]
      constructor <;> ring
    · simp only [if_neg hbr, ih, sumCost_cons, sumQty_cons, Prod.mk.injEq]
      constructor <;> ring

/-- The VWAP is the cost/quantity ratio of the recorded fills. -/
theorem calculate_execution_price_eq_fills (depth : List DepthAllItem) (n : ℚ) :
    calculate_execution_price depth n =
      if sumQty (calcFills depth n) > 0 then
        sumCost (calcFills depth n) / sumQty (calcFills depth n)
      else 0 := by
  simp [calculate_execution_price, calcLoop_eq_fills]

/-- With positive prices and non-negative volumes, every recorded fill has a
positive price and a non-negative quantity. -/
theorem calcFills_mem (depth : List DepthAllItem) : ∀ rem : ℚ,
    (∀ i ∈ depth, 0 < parseOr0 i.price ∧ 0 ≤ parseOr0 i.vol) → 0 < rem →
    ∀ pq ∈ calcFills depth rem, 0 < pq.1 ∧ 0 ≤ pq.2 := by
  induction depth with
  | nil => intro rem _ _ pq hpq; simp [calcFills] at hpq
  | cons item rest ih =>
    intro rem hd hrem pq hpq
    obtain ⟨hp, hv⟩ := hd item (List.mem_cons_self item rest)
    rw [calcFills_cons] at hpq
    set p := parseOr0 item.price with hpdef
    set v := parseOr0 item.vol with hvdef
    set aq : ℚ := fillQty rem p v with haq
    have haq0 : 0 ≤ aq := by
      rw [haq, fillQty]
      split
      · exact hv
      · exact div_nonneg hrem.le hp.le
    by_cases hbr : rem - p * aq ≤ 0
    · rw [if_pos hbr] at hpq
      simp only [List.mem_singleton] at hpq
      subst hpq
      exact ⟨hp, haq0⟩
    · rw [if_neg hbr] at hpq
      rcases List.mem_cons.mp hpq with h | h
      · subst h; exact ⟨hp, haq0⟩
      · exact ih (rem - p * aq) (fun i hi => hd i (List.mem_cons_of_mem _ hi))
          (lt_of_not_le hbr) pq h

theorem sumQty_nonneg (S : List (ℚ × ℚ)) (h : ∀ pq ∈ S, 0 ≤ pq.2) : 0 ≤ sumQty S := by
  induction S with
  | nil => simp [sumQty_nil]
  | cons pq l ih =>
    rw [sumQty_cons]
    have h1 := h pq (List.mem_cons_self pq l)
    have h2 := ih (fun x hx => h x (List.mem_cons_of_mem _ hx))
    linarith

/-- If the target is positive and within the book's total value, a positive
total quantity gets filled. -/
theorem sumQty_fills_pos (depth : List DepthAllItem) : ∀ rem : ℚ,
    (∀ i ∈ depth, 0 < parseOr0 i.price ∧ 0 ≤ parseOr0 i.vol) →
    0 < rem → rem ≤ totalValue depth →
    0 < sumQty (calcFills depth rem) := by
  induction depth with
  | nil =>
    intro rem _ hrem htot
    simp [totalValue] at htot
    linarith
  | cons item rest ih =>
    intro rem hd hrem htot
    obtain ⟨hp, hv⟩ := hd item (List.mem_cons_self item rest)
    rw [calcFills_cons]
    set p := parseOr0 item.price with hpdef
    set v := parseOr0 item.vol with hvdef
    have htv : totalValue (item :: rest) = p * v + totalValue rest := by
      rw [totalValue, List.map_cons, List.sum_cons, ← hpdef, ← hvdef]
      rfl
    by_cases hgt : rem > p * v
    · have haq : fillQty rem p v = v := if_pos hgt
      rw [haq]
      by_cases hbr : rem - p * v ≤ 0
      · -- `rem > p·v` forces `rem - p·v > 0`, so this branch is impossible.
        exact absurd (sub_pos.mpr hgt) (not_lt.mpr hbr)
      · rw [if_neg hbr]
        have hrest : rem - p * v ≤ totalValue rest := by
          rw [htv] at htot; linarith
        have hpos := ih (rem - p * v)
          (fun i hi => hd i (List.mem_cons_of_mem _ hi))
          (lt_of_not_le hbr) hrest
        rw [sumQty_cons]
        simp only
        linarith
    · have haq : fillQty rem p v = rem / p := if_neg hgt
      rw [haq]
      have hcancel : p * (rem / p) = rem := by
        field_simp
      have hbr : rem - p * (rem / p) ≤ 0 := by rw [hcancel]; simp
      rw [if_pos hbr, sumQty_cons, sumQty_nil]
      have : 0 < rem / p := div_pos hrem hp
      simp only
      linarith

/-- Weighted-sum upper bound: every price at most `hi` gives cost at most
`hi · quantity`. -/
theorem sumCost_le (S : List (ℚ × ℚ)) (hi : ℚ)
    (h : ∀ pq ∈ S, pq.1 ≤ hi ∧ 0 ≤ pq.2) : sumCost S ≤ hi * sumQty S := by
  induction S with
  | nil => simp [sumCost_nil, sumQty_nil]
  | cons pq l ih =>
    rw [sumCost_cons, sumQty_cons]
    obtain ⟨h1, h2⟩ := h pq (List.mem_cons_self pq l)
    have h3 := ih (fun x hx => h x (List.mem_cons_of_mem _ hx))
    nlinarith

/-- Weighted-sum lower bound: every price at least `lo` gives cost at least
`lo · quantity`. -/
theorem le_sumCost (S : List (ℚ × ℚ)) (lo : ℚ)
    (h : ∀ pq ∈ S, lo ≤ pq.1 ∧ 0 ≤ pq.2) : lo * sumQty S ≤ sumCost S := by
  induction S with
  | nil => simp [sumCost_nil, sumQty_nil]
  | cons pq l ih =>
    rw [sumCost_cons, sumQty_cons]
    obtain ⟨h1, h2⟩ := h pq (List.mem_cons_self pq l)
    have h3 := ih (fun x hx => h x (List.mem_cons_of_mem _ hx))
    nlinarith

/-- On positive-price levels the source's branch
`if remaining > price*volume { volume } else { remaining/price }` computes
exactly the spec's `min(remaining/price, volume)`. -/
theorem fillQty_eq_min (rem p v : ℚ) (hp : 0 < p) :
    fillQty rem p v = min (rem / p) v := by
  rw [fillQty]
  by_cases h : rem > p * v
  · rw [if_pos h, min_eq_right]
    rw [le_div_iff hp]
    nlinarith
  · rw [if_neg h, min_eq_left]
    rw [div_le_iff hp]
    nlinarith [not_lt.mp h]

/-- With positive prices, the source loop and the spec-worded loop agree. -/
theorem calcLoop_eq_specLoop (depth : List DepthAllItem) :
    (∀ i ∈ depth, 0 < parseOr0 i.price) → ∀ rem tc tq : ℚ,
    calcLoop depth rem tc tq = specEstimateLoop depth rem tc tq := by
  induction depth with
  | nil => intro _ rem tc tq; rfl
  | cons item rest ih =>
    intro hd rem tc tq
    have hp : 0 < parseOr0 item.price := hd item (List.mem_cons_self item rest)
    rw [calcLoop_cons, specEstimateLoop_cons,
        fillQty_eq_min rem (parseOr0 item.price) (parseOr0 item.vol) hp]
    by_cases hbr :
        rem - parseOr0 item.price * min (rem / parseOr0 item.price) (parseOr0 item.vol) ≤ 0
    · rw [if_pos hbr, if_pos hbr]
    · rw [if_neg hbr, if_neg hbr,
        ih (fun i hi => hd i (List.mem_cons_of_mem _ hi))]

/-! ## Helper lemmas about the state transitions -/

/-- The state after the close branch of `execute_trade` fires: trading flag,
entry gap and both leg positions cleared — `position_open_time` untouched
(the source never clears it). -/
def closedState (s : TradingState) : TradingState :=
  { s with is_trading := false, entry_gap := none,
           binance_position := none, bitmart_position := none }

/-- `execute_trade` on an open position with a recorded entry gap: the close
branch fires exactly when `|entry_gap - percent_diff| >= 0.01` (with IEEE
comparison semantics), clearing flag, gap and legs; otherwise the state is
returned untouched. -/
theorem execute_trade_open (b m : ℚ) (br mr : Bool) (s : TradingState) (G : FP)
    (hOpen : s.is_trading = true) (hG : s.entry_gap = some G) :
    (execute_trade b m br mr s).1 =
      if ((G.sub (gapPct b m)).abs.geq (1/100)) = true then closedState s else s := by
  rw [execute_trade, hOpen, hG]
  simp only [Bool.not_true, Bool.false_and, Bool.false_eq_true, if_false, if_true]
  by_cases hfire : (((G.sub (gapPct b m)).abs.geq (1/100)) = true)
  · rw [if_pos hfire, if_pos hfire]
    rfl
  · rw [if_neg hfire, if_neg hfire]

/-- `execute_trade` on an open position without a recorded entry gap does
nothing (the `if let` fails). -/
theorem execute_trade_open_noGap (b m : ℚ) (br mr : Bool) (s : TradingState)
    (hOpen : s.is_trading = true) (hG : s.entry_gap = none) :
    execute_trade b m br mr s = (s, []) := by
  rw [execute_trade, hOpen, hG]
  simp

/-- `execute_trade` on an idle state whose gap magnitude exceeds the 0.01
threshold enters a position: trading flag set and the raw gap recorded;
`position_open_time` is never written on this path. -/
theorem execute_trade_idle_entry (b m : ℚ) (br mr : Bool) (s : TradingState)
    (hIdle : s.is_trading = false)
    (hpd : ((gapPct b m).abs.gtq (1/100)) = true) :
    (execute_trade b m br mr s).1.is_trading = true ∧
    (execute_trade b m br mr s).1.entry_gap = some (gapPct b m) ∧
    (execute_trade b m br mr s).1.position_open_time = s.position_open_time := by
  rw [execute_trade, hIdle]
  simp only [Bool.not_false, Bool.true_and, hpd, if_true]
  by_cases h1 : ((gapPct b m).gtq (1/100)) = true
  · rw [if_pos h1]
    exact ⟨rfl, rfl, rfl⟩
  · rw [if_neg h1]
    by_cases h2 : ((gapPct b m).ltq (-(1/100))) = true
    · rw [if_pos h2]
      exact ⟨rfl, rfl, rfl⟩
    · rw [if_neg h2]
      exact ⟨rfl, rfl, rfl⟩

/-- `execute_trade` on an idle state whose gap magnitude does not exceed the
threshold does nothing. -/
theorem execute_trade_idle_noentry (b m : ℚ) (br mr : Bool) (s : TradingState)
    (hIdle : s.is_trading = false)
    (hpd : ((gapPct b m).abs.gtq (1/100)) = false) :
    execute_trade b m br mr s = (s, []) := by
  rw [execute_trade, hIdle]
  simp only [Bool.not_false, Bool.true_and, hpd, Bool.false_eq_true, if_false]

/-- `execute_trade` never writes `position_open_time`. -/
theorem execute_trade_time (b m : ℚ) (br mr : Bool) (s : TradingState) :
    (execute_trade b m br mr s).1.position_open_time = s.position_open_time := by
  by_cases hIdle : s.is_trading = true
  · cases hG : s.entry_gap with
    | none => rw [execute_trade_open_noGap b m br mr s hIdle hG]
    | some G =>
      rw [execute_trade_open b m br mr s G hIdle hG]
      by_cases hfire : (((G.sub (gapPct b m)).abs.geq (1/100)) = true)
      · rw [if_pos hfire]; rfl
      · rw [if_neg hfire]
  · have hIdle' : s.is_trading = false := by
      cases h : s.is_trading
      · rfl
      · exact absurd h hIdle
    by_cases hpd : ((gapPct b m).abs.gtq (1/100)) = true
    · exact (execute_trade_idle_entry b m br mr s hIdle' hpd).2.2
    · rw [execute_trade_idle_noentry b m br mr s hIdle' (Bool.not_eq_true _ ▸ hpd)]

/-- `check_and_execute_arbitrage` with a position already open changes
nothing and announces nothing: both entry branches are guarded by
`!state.is_trading`. -/
theorem check_arb_open (md : List (String × List DepthAllItem))
    (p : List (String × ℚ)) (psize : ℚ) (s : TradingState) (now : ℕ)
    (h : s.is_trading = true) :
    check_and_execute_arbitrage md p psize s now = (s, none) := by
  rw [check_and_execute_arbitrage, h]
  simp

/-- The first entry branch of `check_and_execute_arbitrage`: when `gap1`
exceeds 0.3 on an idle state, the Binance-short / BitMart-long branch fires
regardless of `gap2`. -/
theorem check_arb_fire1 (md : List (String × List DepthAllItem))
    (p : List (String × ℚ)) (psize : ℚ) (s : TradingState) (now : ℕ)
    (h : s.is_trading = false)
    (h1 : ((gapPct (update_market_prices md p psize).1.short_price
             (update_market_prices md p psize).2.1.long_price).gtq (3/10)) = true) :
    check_and_execute_arbitrage md p psize s now =
      ({ s with is_trading := true,
                entry_gap := some (gapPct (update_market_prices md p psize).1.short_price
                  (update_market_prices md p psize).2.1.long_price),
                position_open_time := some now },
       some ArbDirection.binanceShortBitmartLong) := by
  rw [check_and_execute_arbitrage, h]
  simp [h1]

/-- The second entry branch of `check_and_execute_arbitrage`: it is reached
only when `gap1` does not exceed 0.3, and fires when `gap2` does. -/
theorem check_arb_fire2 (md : List (String × List DepthAllItem))
    (p : List (String × ℚ)) (psize : ℚ) (s : TradingState) (now : ℕ)
    (h : s.is_trading = false)
    (h1 : ((gapPct (update_market_prices md p psize).1.short_price
             (update_market_prices md p psize).2.1.long_price).gtq (3/10)) = false)
    (h2 : ((gapPct (update_market_prices md p psize).2.1.short_price
             (update_market_prices md p psize).1.long_price).gtq (3/10)) = true) :
    check_and_execute_arbitrage md p psize s now =
      ({ s with is_trading := true,
                entry_gap := some (gapPct (update_market_prices md p psize).2.1.short_price
                  (update_market_prices md p psize).1.long_price),
                position_open_time := some now },
       some ArbDirection.bitmartShortBinanceLong) := by
  rw [check_and_execute_arbitrage, h]
  simp [h1, h2]

/-- Neither entry branch of `check_and_execute_arbitrage` fires when neither
gap exceeds the threshold. -/
theorem check_arb_none (md : List (String × List DepthAllItem))
    (p : List (String × ℚ)) (psize : ℚ) (s : TradingState) (now : ℕ)
    (h1 : ((gapPct (update_market_prices md p psize).1.short_price
             (update_market_prices md p psize).2.1.long_price).gtq (3/10)) = false)
    (h2 : ((gapPct (update_market_prices md p psize).2.1.short_price
             (update_market_prices md p psize).1.long_price).gtq (3/10)) = false) :
    check_and_execute_arbitrage md p psize s now = (s, none) := by
  rw [check_and_execute_arbitrage]
  simp [h1, h2]

/-- The invariant that actually holds of the shared state: the trading flag
is set exactly when an entry gap is recorded.  (The leg positions and the
open timestamp are *not* synchronised with the flag — see the claim C3
counterexample.) -/
def stateInv (s : TradingState) : Prop := s.is_trading = true ↔ s.entry_gap.isSome

theorem stateInv_step_trade (b m : ℚ) (br mr : Bool) (s : TradingState)
    (h : stateInv s) : stateInv (execute_trade b m br mr s).1 := by
  by_cases hT : s.is_trading = true
  · cases hG : s.entry_gap with
    | none => rw [execute_trade_open_noGap b m br mr s hT hG]; exact h
    | some G =>
      rw [execute_trade_open b m br mr s G hT hG]
      by_cases hfire : (((G.sub (gapPct b m)).abs.geq (1/100)) = true)
      · rw [if_pos hfire]
        simp [stateInv, closedState]
      · rw [if_neg hfire]; exact h
  · have hT' : s.is_trading = false := by
      cases hx : s.is_trading
      · rfl
      · exact absurd hx hT
    by_cases hpd : ((gapPct b m).abs.gtq (1/100)) = true
    · obtain ⟨h1, h2, _⟩ := execute_trade_idle_entry b m br mr s hT' hpd
      rw [stateInv, h1, h2]
      simp
    · rw [execute_trade_idle_noentry b m br mr s hT' (Bool.not_eq_true _ ▸ hpd)]
      exact h

theorem stateInv_step_arb (md : List (String × List DepthAllItem))
    (p : List (String × ℚ)) (psize : ℚ) (now : ℕ) (s : TradingState)
    (h : stateInv s) : stateInv (check_and_execute_arbitrage md p psize s now).1 := by
  by_cases hT : s.is_trading = true
  · rw [check_arb_open md p psize s now hT]; exact h
  · have hT' : s.is_trading = false := by
      cases hx : s.is_trading
      · rfl
      · exact absurd hx hT
    by_cases h1 : ((gapPct (update_market_prices md p psize).1.short_price
        (update_market_prices md p psize).2.1.long_price).gtq (3/10)) = true
    · rw [check_arb_fire1 md p psize s now hT' h1]
      simp [stateInv]
    · by_cases h2 : ((gapPct (update_market_prices md p psize).2.1.short_price
          (update_market_prices md p psize).1.long_price).gtq (3/10)) = true
      · rw [check_arb_fire2 md p psize s now hT' (Bool.not_eq_true _ ▸ h1) h2]
        simp [stateInv]
      · rw [check_arb_none md p psize s now (Bool.not_eq_true _ ▸ h1)
          (Bool.not_eq_true _ ▸ h2)]
        exact h

/-! ## Claim theorems -/

/-- C1 (confirmed) — Single-position guarantee: on every evaluation of the
entry path with the position state already open (`is_trading = true`), no
Idle→Open transition fires and no entry-side mutation occurs, however large
the current gap: `check_and_execute_arbitrage` returns the state untouched
and announces nothing, and `execute_trade` either leaves the state untouched
or (close path) turns the flag off — it can never return a state that is
still open yet differs from the input, so a second simultaneous open
position is never produced. -/
theorem C1_single_position_guarantee
    (md : List (String × List DepthAllItem)) (p : List (String × ℚ))
    (psize : ℚ) (now : ℕ) (b m : ℚ) (br mr : Bool) (s : TradingState)
    (h : s.is_trading = true) :
    check_and_execute_arbitrage md p psize s now = (s, none) ∧
    ((execute_trade b m br mr s).1.is_trading = true →
      (execute_trade b m br mr s).1 = s) := by
  refine ⟨check_arb_open md p psize s now h, ?_⟩
  intro h2
  cases hG : s.entry_gap with
  | none => rw [execute_trade_open_noGap b m br mr s h hG]
  | some G =>
    rw [execute_trade_open b m br mr s G h hG] at h2 ⊢
    by_cases hfire : (((G.sub (gapPct b m)).abs.geq (1/100)) = true)
    · rw [if_pos hfire] at h2
      simp [closedState] at h2
    · rw [if_neg hfire]

/-- Witness for C1 at a concrete open state. -/
theorem C1_single_position_guarantee_witness :
    (⟨true, some (FP.fin 0), none, none, none⟩ : TradingState).is_trading = true ∧
    (check_and_execute_arbitrage [] [] 1000 ⟨true, some (FP.fin 0), none, none, none⟩ 0 =
      (⟨true, some (FP.fin 0), none, none, none⟩, none) ∧
    ((execute_trade 100 100 true true ⟨true, some (FP.fin 0), none, none, none⟩).1.is_trading = true →
      (execute_trade 100 100 true true ⟨true, some (FP.fin 0), none, none, none⟩).1 =
        ⟨true, some (FP.fin 0), none, none, none⟩)) :=
  ⟨rfl, C1_single_position_guarantee [] [] 1000 0 100 100 true true _ rfl⟩

/-- C2 (code_bug) — the source does *not* preserve the open state when both
close legs fail.  At entry gap 1%, prices Binance 102 / Bitmart 100 (current
gap 2%, reduction 1% ≥ 0.01) the close branch fires; both gateway results
are failures (`false`), yet the state is cleared to not-trading with the
entry gap and both legs erased, contradicting "if both legs fail, no state
change is applied".  The two close orders were attempted (second conjunct);
their failed results are ignored by the source. -/
theorem C2_close_failure_clears_state :
    (execute_trade 102 100 false false
        ⟨true, some (FP.fin 1), some ("SHORT"), some ("LONG"), some 7⟩).1 =
      ⟨false, none, none, none, some 7⟩ ∧
    (execute_trade 102 100 false false
        ⟨true, some (FP.fin 1), some ("SHORT"), some ("LONG"), some 7⟩).2 =
      [⟨("Binance"), ("XRPUSDT"), ("BUY"), 100⟩, ⟨("Bitmart"), ("XRPUSDT"), ("sell"), 100⟩] ∧
    (execute_trade 102 100 false false
        ⟨true, some (FP.fin 1), some ("SHORT"), some ("LONG"), some 7⟩).1 ≠
      ⟨true, some (FP.fin 1), some ("SHORT"), some ("LONG"), some 7⟩ := by
  refine ⟨?_, ?_, ?_⟩ <;>
    norm_num [execute_trade, gapPct, FP.gtq, FP.geq, FP.ltq, FP.abs, FP.sub] <;>
    decide

/-- C3 counterexample — the claimed "Open ⇔ all of entry_gap, leg sides,
opened_at present" invariant fails on a state reachable in one step: after
`execute_trade` opens on prices 100/99 from the default state, the position
is open with both legs recorded but `position_open_time` is still `none`. -/
theorem C3_counterexample :
    Reachable (execute_trade 100 99 true true TradingState.default).1 ∧
    (execute_trade 100 99 true true TradingState.default).1.is_trading = true ∧
    (execute_trade 100 99 true true TradingState.default).1.binance_position = some ("SHORT") ∧
    (execute_trade 100 99 true true TradingState.default).1.position_open_time = none := by
  have habs : |(100:ℚ)/99| = 100/99 := abs_of_pos (by norm_num)
  refine ⟨Reachable.step_trade 100 99 true true Reachable.init, ?_, ?_, ?_⟩ <;>
    norm_num [execute_trade, gapPct, FP.gtq, FP.abs, TradingState.default, habs]

/-- C3 (corrected) — the invariant that does hold on every reachable state:
the position is open (`is_trading = true`) exactly when `entry_gap` is
present.  The leg sides and the open timestamp are not synchronised with the
phase (see `C3_counterexample`). -/
theorem C3_open_iff_entry_gap (s : TradingState) (h : Reachable s) :
    s.is_trading = true ↔ s.entry_gap.isSome := by
  induction h with
  | init => simp [TradingState.default]
  | step_trade b m br mr _ ih => exact stateInv_step_trade b m br mr _ ih
  | step_arb md p psize now _ ih => exact stateInv_step_arb md p psize now _ ih

/-- Witness for C3 on a concrete reachable state (the default state). -/
theorem C3_open_iff_entry_gap_witness :
    TradingState.default.is_trading = true ↔ TradingState.default.entry_gap.isSome :=
  C3_open_iff_entry_gap TradingState.default Reachable.init

/-- C4 counterexample — the claim says that on firing the close transition
"the entry gap, leg sides, and open timestamp are cleared".  On a concrete
open position (entry gap 1%, open time 5) with a current gap of 2% the close
fires and clears flag, gap and legs, but `position_open_time` survives as
`some 5`: the source's close path (execute_trade.rs lines 150-153) never
clears it. -/
theorem C4_counterexample :
    (execute_trade 102 100 true true
        ⟨true, some (FP.fin 1), some ("SHORT"), some ("LONG"), some 5⟩).1.is_trading = false ∧
    (execute_trade 102 100 true true
        ⟨true, some (FP.fin 1), some ("SHORT"), some ("LONG"), some 5⟩).1.entry_gap = none ∧
    (execute_trade 102 100 true true
        ⟨true, some (FP.fin 1), some ("SHORT"), some ("LONG"), some 5⟩).1.binance_position = none ∧
    (execute_trade 102 100 true true
        ⟨true, some (FP.fin 1), some ("SHORT"), some ("LONG"), some 5⟩).1.position_open_time = some 5 := by
  refine ⟨?_, ?_, ?_, ?_⟩ <;>
    norm_num [execute_trade, gapPct, FP.gtq, FP.geq, FP.ltq, FP.abs, FP.sub]

/-- C4 (corrected) — exit hysteresis as the code implements it: with an open
position and recorded finite entry gap `g`, the close fires exactly when
`|g - current_gap| >= 0.01` (the hard-coded `exit_reduction_pct`), in
particular at `current_gap = g - 0.01` exactly and not at
`current_gap = g - 0.01 + ε` for `0 < ε < 0.02`; on firing the entry gap and
leg sides are cleared but the open timestamp is retained; otherwise the
state is unchanged.  (`gapPct b 100 = FP.fin (b - 100)`, so the prices
`b = 100 + (g - 1/100)` realise the boundary gap exactly.) -/
theorem C4_exit_hysteresis_amended (b m : ℚ) (br mr : Bool) (s : TradingState)
    (g ε : ℚ) (hOpen : s.is_trading = true) (hG : s.entry_gap = some (FP.fin g)) :
    ((execute_trade b m br mr s).1 =
      if (((FP.fin g).sub (gapPct b m)).abs.geq (1/100)) = true then closedState s else s) ∧
    (execute_trade (100 + (g - 1/100)) 100 br mr s).1 = closedState s ∧
    (execute_trade (100 + (g - 1/100)) 100 br mr s).1.position_open_time = s.position_open_time ∧
    (0 < ε → ε < 2/100 →
      (execute_trade (100 + (g - 1/100) + ε) 100 br mr s).1 = s) := by
  have hb1 : gapPct (100 + (g - 1/100)) 100 = FP.fin (g - 1/100) := by
    rw [gapPct, if_neg (by norm_num : ¬(100:ℚ) = 0)]
    congr 1
    ring
  have hb2 : gapPct (100 + (g - 1/100) + ε) 100 = FP.fin (g - 1/100 + ε) := by
    rw [gapPct, if_neg (by norm_num : ¬(100:ℚ) = 0)]
    congr 1
    ring
  have hc1 : g - (g - 1/100) = 1/100 := by ring
  have hc2 : g - (g - 1/100 + ε) = 1/100 - ε := by ring
  have habs : |(1:ℚ)/100| = 1/100 := abs_of_pos (by norm_num)
  refine ⟨execute_trade_open b m br mr s (FP.fin g) hOpen hG, ?_, ?_, ?_⟩
  · rw [execute_trade_open _ _ br mr s (FP.fin g) hOpen hG, hb1]
    have hcond : (((FP.fin g).sub (FP.fin (g - 1/100))).abs.geq (1/100)) = true := by
      simp only [FP.sub, FP.abs, FP.geq, hc1, habs, decide_eq_true_eq]
      exact le_refl _
    rw [hcond]
    simp
  · exact execute_trade_time _ _ br mr s
  · intro hε1 hε2
    rw [execute_trade_open _ _ br mr s (FP.fin g) hOpen hG, hb2]
    have hcond : (((FP.fin g).sub (FP.fin (g - 1/100 + ε))).abs.geq (1/100)) = false := by
      simp only [FP.sub, FP.abs, FP.geq, decide_eq_false_iff_not, not_le, hc2]
      exact abs_lt.mpr ⟨by linarith, by linarith⟩
    rw [hcond]
    simp

/-- Witness for C4 at a concrete open position (entry gap 1, `ε = 1/200`). -/
theorem C4_exit_hysteresis_amended_witness :
    (⟨true, some (FP.fin 1), some ("SHORT"), some ("LONG"), some 5⟩ : TradingState).is_trading = true ∧
    (⟨true, some (FP.fin 1), some ("SHORT"), some ("LONG"), some 5⟩ : TradingState).entry_gap =
      some (FP.fin 1) ∧
    (((execute_trade 102 100 true true
        ⟨true, some (FP.fin 1), some ("SHORT"), some ("LONG"), some 5⟩).1 =
      if (((FP.fin 1).sub (gapPct 102 100)).abs.geq (1/100)) = true then
        closedState ⟨true, some (FP.fin 1), some ("SHORT"), some ("LONG"), some 5⟩
      else ⟨true, some (FP.fin 1), some ("SHORT"), some ("LONG"), some 5⟩) ∧
    (execute_trade (100 + (1 - 1/100)) 100 true true
        ⟨true, some (FP.fin 1), some ("SHORT"), some ("LONG"), some 5⟩).1 =
      closedState ⟨true, some (FP.fin 1), some ("SHORT"), some ("LONG"), some 5⟩ ∧
    (execute_trade (100 + (1 - 1/100)) 100 true true
        ⟨true, some (FP.fin 1), some ("SHORT"), some ("LONG"), some 5⟩).1.position_open_time =
      (⟨true, some (FP.fin 1), some ("SHORT"), some ("LONG"), some 5⟩ : TradingState).position_open_time ∧
    ((0:ℚ) < 1/200 → (1:ℚ)/200 < 2/100 →
      (execute_trade (100 + (1 - 1/100) + 1/200) 100 true true
        ⟨true, some (FP.fin 1), some ("SHORT"), some ("LONG"), some 5⟩).1 =
        ⟨true, some (FP.fin 1), some ("SHORT"), some ("LONG"), some 5⟩)) :=
  ⟨rfl, rfl, C4_exit_hysteresis_amended 102 100 true true _ 1 (1/200) rfl rfl⟩

/-- C5 (confirmed) — VWAP walk correctness: on positive-price depth
sequences the source's walk (branching on `remaining > price*volume`)
computes exactly the spec's walk (filling `min(remaining/price, volume)` per
level, accumulating cost and quantity, stopping once the remaining notional
is exhausted, returning cost/quantity when anything filled); and on the
spec's concrete scenario (asks [(101,2),(102,5)], notional 300) it returns
15300/151 ≈ 101.33 (within 0.01 of the claimed value). -/
theorem C5_vwap_walk (depth : List DepthAllItem) (n : ℚ)
    (h : ∀ i ∈ depth, 0 < parseOr0 i.price) :
    calculate_execution_price depth n = specEstimate depth n ∧
    calculate_execution_price [⟨some 101, some 2⟩, ⟨some 102, some 5⟩] 300 = 15300/151 ∧
    |(15300:ℚ)/151 - 10133/100| < 1/100 := by
  refine ⟨?_, ?_, by rw [abs_lt]; constructor <;> norm_num⟩
  · rw [calculate_execution_price, specEstimate, calcLoop_eq_specLoop depth h n 0 0]
  · norm_num [calculate_execution_price, calcLoop, parseOr0]

/-- Witness for C5 at the spec scenario depth. -/
theorem C5_vwap_walk_witness :
    (∀ i ∈ [(⟨some 101, some 2⟩ : DepthAllItem), ⟨some 102, some 5⟩],
      0 < parseOr0 i.price) ∧
    (calculate_execution_price [⟨some 101, some 2⟩, ⟨some 102, some 5⟩] 300 =
      specEstimate [⟨some 101, some 2⟩, ⟨some 102, some 5⟩] 300 ∧
    calculate_execution_price [⟨some 101, some 2⟩, ⟨some 102, some 5⟩] 300 = 15300/151 ∧
    |(15300:ℚ)/151 - 10133/100| < 1/100) :=
  ⟨by simp [List.forall_mem_cons, parseOr0],
   C5_vwap_walk _ 300 (by simp [List.forall_mem_cons, parseOr0])⟩

/-- C6 (code_bug) — there is no zero-quote guard: with a Binance price of 100
stored and no BitMart depth at all, the BitMart long quote is the
estimator's `0`, the gap `(99.95 - 0)/0 · 100` evaluates to `+∞` under IEEE
semantics (no panic), `+∞ > 0.3` holds, and `check_and_execute_arbitrage`
*does* open a position, recording `entry_gap = +∞` — gap evaluation is not
skipped and an open decision is produced from a quote of 0. -/
theorem C6_zero_quote_opens_position :
    (update_market_prices [] [(("Binance"), 100)] 1000).2.1.long_price = 0 ∧
    check_and_execute_arbitrage [] [(("Binance"), 100)] 1000 TradingState.default 0 =
      (⟨true, some FP.inf, none, none, some 0⟩, some ArbDirection.binanceShortBitmartLong) := by
  constructor <;>
    norm_num [check_and_execute_arbitrage, update_market_prices,
      calculate_execution_price, calcLoop, gapPct, FP.gtq, TradingState.default,
      List.lookup]

/-- C7 counterexample — in the spec scenario (Binance=100, Bitmart=99 in the
price store, no depth for either venue) the BitMart quotes do *not* come
from the fixed-spread model: the BitMart long price is the estimator's 0,
not 99·1.0005, and the recorded entry gap is `+∞`, not a finite value
≈ 0.44. -/
theorem C7_counterexample :
    (update_market_prices [] [(("Binance"), 100), (("Bitmart"), 99)] 1000).2.1.long_price = 0 ∧
    (update_market_prices [] [(("Binance"), 100), (("Bitmart"), 99)] 1000).2.1.long_price ≠
      99 * (10005/10000) ∧
    (check_and_execute_arbitrage [] [(("Binance"), 100), (("Bitmart"), 99)] 1000
        TradingState.default 0).1.entry_gap = some FP.inf ∧
    (some FP.inf ≠ some (FP.fin (11/25))) := by
  refine ⟨?_, ?_, ?_, by simp⟩ <;>
    norm_num [check_and_execute_arbitrage, update_market_prices,
      calculate_execution_price, calcLoop, gapPct, FP.gtq, TradingState.default,
      List.lookup]

/-- C7 (corrected) — what the code actually does in the scenario: only the
Binance quotes use the fixed ±0.05% spread model (long 100.05, short 99.95);
the BitMart quotes are depth-based and both 0 with no depth stored; gap_ab
is therefore `+∞`, which exceeds the 0.3 threshold, and an open decision
fires in the Binance-short / BitMart-long direction with `entry_gap = +∞`. -/
theorem C7_no_bitmart_fallback :
    update_market_prices [] [(("Binance"), 100), (("Bitmart"), 99)] 1000 =
      (⟨2001/20, 1999/20⟩, ⟨0, 0⟩,
       [(("Binance_Long"), 2001/20), (("Binance_Short"), 1999/20),
        (("Bitmart_Long"), 0), (("Bitmart_Short"), 0),
        (("Binance"), 100), (("Bitmart"), 99)]) ∧
    check_and_execute_arbitrage [] [(("Binance"), 100), (("Bitmart"), 99)] 1000
        TradingState.default 0 =
      (⟨true, some FP.inf, none, none, some 0⟩, some ArbDirection.binanceShortBitmartLong) := by
  constructor <;>
    norm_num [check_and_execute_arbitrage, update_market_prices,
      calculate_execution_price, calcLoop, gapPct, FP.gtq, TradingState.default,
      List.lookup]

/-- C8 counterexample — the claim requires the estimate to lie *strictly*
between the best and worst consumed price.  On the single-level book
[(100, 10)] with notional 300 (positive and within the book's total value
1000) only the level at price 100 is consumed (3 units) and the estimate is
exactly 100 — not strictly between 100 and 100. -/
theorem C8_counterexample :
    (0:ℚ) < 300 ∧ (300:ℚ) ≤ totalValue [⟨some 100, some 10⟩] ∧
    calcFills [⟨some 100, some 10⟩] 300 = [(100, 3)] ∧
    calculate_execution_price [⟨some 100, some 10⟩] 300 = 100 ∧
    ¬(100 < calculate_execution_price [⟨some 100, some 10⟩] 300 ∧
      calculate_execution_price [⟨some 100, some 10⟩] 300 < 100) := by
  refine ⟨by norm_num, ?_, ?_, ?_, ?_⟩ <;>
    norm_num [totalValue, calcFills, calculate_execution_price, calcLoop, parseOr0]

/-- C8 (corrected) — VWAP bounds, inclusive form: for positive-price,
non-negative-volume depth and a positive target notional within the book's
total value, the estimate lies (inclusively) between every lower bound `lo`
and upper bound `hi` of the prices of the levels actually consumed — i.e.
between the best and worst consumed price, with equality possible when a
single price is consumed (see `C8_counterexample`); and the estimate of an
empty book is 0. -/
theorem C8_vwap_bounds_amended (depth : List DepthAllItem) (n lo hi : ℚ)
    (hd : ∀ i ∈ depth, 0 < parseOr0 i.price ∧ 0 ≤ parseOr0 i.vol)
    (hn : 0 < n) (htot : n ≤ totalValue depth)
    (hb : ∀ pq ∈ calcFills depth n, lo ≤ pq.1 ∧ pq.1 ≤ hi) :
    lo ≤ calculate_execution_price depth n ∧
    calculate_execution_price depth n ≤ hi ∧
    calculate_execution_price [] n = 0 := by
  have hQpos := sumQty_fills_pos depth n hd hn htot
  have hmem := calcFills_mem depth n hd hn
  rw [calculate_execution_price_eq_fills, if_pos hQpos]
  refine ⟨?_, ?_, by norm_num [calculate_execution_price, calcLoop]⟩
  · rw [le_div_iff₀ hQpos]
    have := le_sumCost (calcFills depth n) lo
      (fun pq hpq => ⟨(hb pq hpq).1, (hmem pq hpq).2⟩)
    linarith
  · rw [div_le_iff₀ hQpos]
    have := sumCost_le (calcFills depth n) hi
      (fun pq hpq => ⟨(hb pq hpq).2, (hmem pq hpq).2⟩)
    linarith

/-- Witness for C8 at the two-level book [(101,2),(102,5)], notional 300. -/
theorem C8_vwap_bounds_amended_witness :
    (∀ i ∈ [(⟨some 101, some 2⟩ : DepthAllItem), ⟨some 102, some 5⟩],
      0 < parseOr0 i.price ∧ 0 ≤ parseOr0 i.vol) ∧
    (0:ℚ) < 300 ∧
    (300:ℚ) ≤ totalValue [⟨some 101, some 2⟩, ⟨some 102, some 5⟩] ∧
    (∀ pq ∈ calcFills [(⟨some 101, some 2⟩ : DepthAllItem), ⟨some 102, some 5⟩] 300,
      (101:ℚ) ≤ pq.1 ∧ pq.1 ≤ 102) ∧
    ((101:ℚ) ≤ calculate_execution_price [⟨some 101, some 2⟩, ⟨some 102, some 5⟩] 300 ∧
     calculate_execution_price [⟨some 101, some 2⟩, ⟨some 102, some 5⟩] 300 ≤ 102 ∧
     calculate_execution_price [] 300 = 0) := by
  have hd : ∀ i ∈ [(⟨some 101, some 2⟩ : DepthAllItem), ⟨some 102, some 5⟩],
      0 < parseOr0 i.price ∧ 0 ≤ parseOr0 i.vol := by
    simp [List.forall_mem_cons, parseOr0]
  have hb : ∀ pq ∈ calcFills [(⟨some 101, some 2⟩ : DepthAllItem), ⟨some 102, some 5⟩] 300,
      (101:ℚ) ≤ pq.1 ∧ pq.1 ≤ 102 := by
    norm_num [calcFills, parseOr0, List.forall_mem_cons]
  have htot : (300:ℚ) ≤ totalValue [⟨some 101, some 2⟩, ⟨some 102, some 5⟩] := by
    norm_num [totalValue, parseOr0]
  exact ⟨hd, by norm_num, htot, hb,
    C8_vwap_bounds_amended _ 300 101 102 hd (by norm_num) htot hb⟩

/-- The BitMart depth of the C9 scenario: asks [(99.6, 1000)],
bids [(101, 1000)]. -/
def c9Depth : List (String × List DepthAllItem) :=
  [(("BitMart_Asks"), [⟨some (498/5), some 1000⟩]),
   (("BitMart_Bids"), [⟨some 101, some 1000⟩])]

/-- The price store of the C9 scenario: Binance top price 100. -/
def c9Prices : List (String × ℚ) := [(("Binance"), 100)]

/-- C9 counterexample — at BitMart asks [(99.6, 1000)], bids [(101, 1000)]
and Binance top price 100, both gaps exceed the 0.3 threshold
(gap_ab = 175/498 ≈ 0.3514, gap_ba = 1900/2001 ≈ 0.9495) and gap_ba has the
strictly larger absolute value, yet the code opens in the gap_ab direction
(Binance short / BitMart long) with `entry_gap = gap_ab`: the first branch
wins regardless of magnitude, contradicting the larger-gap tie-break. -/
theorem C9_counterexample :
    gapPct (update_market_prices c9Depth c9Prices 1000).1.short_price
      (update_market_prices c9Depth c9Prices 1000).2.1.long_price = FP.fin (175/498) ∧
    gapPct (update_market_prices c9Depth c9Prices 1000).2.1.short_price
      (update_market_prices c9Depth c9Prices 1000).1.long_price = FP.fin (1900/2001) ∧
    (3/10 : ℚ) < 175/498 ∧ ((175:ℚ)/498) < 1900/2001 ∧
    check_and_execute_arbitrage c9Depth c9Prices 1000 TradingState.default 5 =
      (⟨true, some (FP.fin (175/498)), none, none, some 5⟩,
       some ArbDirection.binanceShortBitmartLong) := by
  refine ⟨?_, ?_, by norm_num, by norm_num, ?_⟩ <;>
    norm_num [check_and_execute_arbitrage, update_market_prices,
      calculate_execution_price, calcLoop, gapPct, FP.gtq, TradingState.default,
      List.lookup, parseOr0, c9Depth, c9Prices]

/-- C9 (corrected) — the entry evaluation checks gap_ab first: from an idle
state, whenever gap_ab exceeds the threshold the Binance-short/BitMart-long
branch fires regardless of gap_ba's magnitude, and the gap_ba branch fires
only when gap_ab does not exceed the threshold.  (When the two gaps are
exactly equal, the gap_ab direction is taken, agreeing with the claimed
tie-break on that point only.) -/
theorem C9_entry_precedence_amended (md : List (String × List DepthAllItem))
    (p : List (String × ℚ)) (psize : ℚ) (s : TradingState) (now : ℕ)
    (h : s.is_trading = false) :
    (((gapPct (update_market_prices md p psize).1.short_price
        (update_market_prices md p psize).2.1.long_price).gtq (3/10)) = true →
      check_and_execute_arbitrage md p psize s now =
        ({ s with is_trading := true,
                  entry_gap := some (gapPct (update_market_prices md p psize).1.short_price
                    (update_market_prices md p psize).2.1.long_price),
                  position_open_time := some now },
         some ArbDirection.binanceShortBitmartLong)) ∧
    (((gapPct (update_market_prices md p psize).1.short_price
        (update_market_prices md p psize).2.1.long_price).gtq (3/10)) = false →
      ((gapPct (update_market_prices md p psize).2.1.short_price
        (update_market_prices md p psize).1.long_price).gtq (3/10)) = true →
      check_and_execute_arbitrage md p psize s now =
        ({ s with is_trading := true,
                  entry_gap := some (gapPct (update_market_prices md p psize).2.1.short_price
                    (update_market_prices md p psize).1.long_price),
                  position_open_time := some now },
         some ArbDirection.bitmartShortBinanceLong)) :=
  ⟨fun h1 => check_arb_fire1 md p psize s now h h1,
   fun h1 h2 => check_arb_fire2 md p psize s now h h1 h2⟩

/-- Witness for C9 at the scenario inputs from the default state. -/
theorem C9_entry_precedence_amended_witness :
    TradingState.default.is_trading = false ∧
    ((((gapPct (update_market_prices c9Depth c9Prices 1000).1.short_price
        (update_market_prices c9Depth c9Prices 1000).2.1.long_price).gtq (3/10)) = true →
      check_and_execute_arbitrage c9Depth c9Prices 1000 TradingState.default 5 =
        ({ TradingState.default with
            is_trading := true,
            entry_gap := some (gapPct (update_market_prices c9Depth c9Prices 1000).1.short_price
              (update_market_prices c9Depth c9Prices 1000).2.1.long_price),
            position_open_time := some 5 },
         some ArbDirection.binanceShortBitmartLong)) ∧
    ((((gapPct (update_market_prices c9Depth c9Prices 1000).1.short_price
        (update_market_prices c9Depth c9Prices 1000).2.1.long_price).gtq (3/10)) = false →
      ((gapPct (update_market_prices c9Depth c9Prices 1000).2.1.short_price
        (update_market_prices c9Depth c9Prices 1000).1.long_price).gtq (3/10)) = true →
      check_and_execute_arbitrage c9Depth c9Prices 1000 TradingState.default 5 =
        ({ TradingState.default with
            is_trading := true,
            entry_gap := some (gapPct (update_market_prices c9Depth c9Prices 1000).2.1.short_price
              (update_market_prices c9Depth c9Prices 1000).1.long_price),
            position_open_time := some 5 },
         some ArbDirection.bitmartShortBinanceLong)))) :=
  ⟨rfl, C9_entry_precedence_amended c9Depth c9Prices 1000 TradingState.default 5 rfl⟩

/-- C10 counterexample — the claim's consequence "the returned average price
is strictly below the prices of the positive-price levels consumed" fails:
with depth [(0,1),(100,1),(200,10)] and notional 500 the walk consumes the
zero-price level (full volume, zero cost), the level at 100 and two units at
200, and returns 125, which is *above* the consumed positive price 100. -/
theorem C10_counterexample :
    calcFills [⟨some 0, some 1⟩, ⟨some 100, some 1⟩, ⟨some 200, some 10⟩] 500 =
      [(0, 1), (100, 1), (200, 2)] ∧
    calculate_execution_price
      [⟨some 0, some 1⟩, ⟨some 100, some 1⟩, ⟨some 200, some 10⟩] 500 = 125 ∧
    ¬(calculate_execution_price
      [⟨some 0, some 1⟩, ⟨some 100, some 1⟩, ⟨some 200, some 10⟩] 500 < 100) := by
  refine ⟨?_, ?_, ?_⟩ <;>
    norm_num [calcFills, calculate_execution_price, calcLoop, parseOr0]

/-- C10 (corrected) — zero-price levels: a level whose parsed price is 0
(e.g. an unparseable string) with positive volume, reached while the
remaining notional is positive, takes the full-volume branch (no division by
zero is evaluated), adds its whole volume at zero added cost, and leaves the
remaining notional unchanged (first conjunct: the loop step is exactly a
quantity-only accumulation).  Consequently the returned average price is
strictly below the *maximum* price among the levels consumed — but not
necessarily below every consumed positive price (see `C10_counterexample`). -/
theorem C10_zero_price_levels_amended (item : DepthAllItem) (rest : List DepthAllItem)
    (rem tc tq : ℚ) (depth : List DepthAllItem) (n q0 pmax : ℚ)
    (h1 : parseOr0 item.price = 0) (h2 : 0 < parseOr0 item.vol) (h3 : 0 < rem)
    (h4 : ((0:ℚ), q0) ∈ calcFills depth n) (h5 : 0 < q0)
    (h6 : ∀ pq ∈ calcFills depth n, 0 ≤ pq.2)
    (h7 : ∀ pq ∈ calcFills depth n, pq.1 ≤ pmax) (h8 : 0 < pmax) :
    calcLoop (item :: rest) rem tc tq = calcLoop rest rem tc (tq + parseOr0 item.vol) ∧
    calculate_execution_price depth n < pmax := by
  constructor
  · rw [calcLoop_cons, h1]
    have hcond : (0:ℚ) * parseOr0 item.vol < rem := by rw [zero_mul]; exact h3
    have haq : fillQty rem 0 (parseOr0 item.vol) = parseOr0 item.vol := by
      rw [fillQty]; exact if_pos hcond
    rw [haq]
    simp only [zero_mul, sub_zero, mul_zero, add_zero]
    rw [if_neg (not_le.mpr h3)]
  · obtain ⟨l1, l2, hsplit⟩ := List.append_of_mem h4
    have hmem1 : ∀ pq ∈ l1, pq ∈ calcFills depth n := by
      intro pq hpq; rw [hsplit]; exact List.mem_append_left _ hpq
    have hmem2 : ∀ pq ∈ l2, pq ∈ calcFills depth n := by
      intro pq hpq; rw [hsplit]
      exact List.mem_append_right _ (List.mem_cons_of_mem _ hpq)
    have hQ : sumQty (calcFills depth n) = sumQty l1 + q0 + sumQty l2 := by
      rw [hsplit, sumQty_append, sumQty_cons]; ring
    have hC : sumCost (calcFills depth n) = sumCost l1 + sumCost l2 := by
      rw [hsplit, sumCost_append, sumCost_cons]; ring
    have hC1 : sumCost l1 ≤ pmax * sumQty l1 :=
      sumCost_le l1 pmax (fun pq hpq => ⟨h7 _ (hmem1 pq hpq), h6 _ (hmem1 pq hpq)⟩)
    have hC2 : sumCost l2 ≤ pmax * sumQty l2 :=
      sumCost_le l2 pmax (fun pq hpq => ⟨h7 _ (hmem2 pq hpq), h6 _ (hmem2 pq hpq)⟩)
    have hq1 : 0 ≤ sumQty l1 := sumQty_nonneg l1 (fun pq hpq => h6 _ (hmem1 pq hpq))
    have hq2 : 0 ≤ sumQty l2 := sumQty_nonneg l2 (fun pq hpq => h6 _ (hmem2 pq hpq))
    have hQpos : 0 < sumQty (calcFills depth n) := by rw [hQ]; linarith
    rw [calculate_execution_price_eq_fills, if_pos hQpos]
    rw [div_lt_iff₀ hQpos, hC, hQ]
    have hexp : pmax * (sumQty l1 + q0 + sumQty l2) =
        pmax * sumQty l1 + pmax * q0 + pmax * sumQty l2 := by ring
    have hpq0 : 0 < pmax * q0 := mul_pos h8 h5
    rw [hexp]
    linarith

/-- Witness for C10: depth [(unparseable, 1), (100, 10)], notional 300. -/
theorem C10_zero_price_levels_amended_witness :
    parseOr0 (⟨none, some 1⟩ : DepthAllItem).price = 0 ∧
    (0:ℚ) < parseOr0 (⟨none, some 1⟩ : DepthAllItem).vol ∧
    (0:ℚ) < 5 ∧
    ((0:ℚ), 1) ∈ calcFills [(⟨none, some 1⟩ : DepthAllItem), ⟨some 100, some 10⟩] 300 ∧
    (0:ℚ) < 1 ∧
    (∀ pq ∈ calcFills [(⟨none, some 1⟩ : DepthAllItem), ⟨some 100, some 10⟩] 300, 0 ≤ pq.2) ∧
    (∀ pq ∈ calcFills [(⟨none, some 1⟩ : DepthAllItem), ⟨some 100, some 10⟩] 300, pq.1 ≤ 100) ∧
    (0:ℚ) < 100 ∧
    (calcLoop [(⟨none, some 1⟩ : DepthAllItem)] 5 0 0 =
      calcLoop [] 5 0 (0 + parseOr0 (⟨none, some 1⟩ : DepthAllItem).vol) ∧
    calculate_execution_price [(⟨none, some 1⟩ : DepthAllItem), ⟨some 100, some 10⟩] 300 < 100) := by
  have hfills : calcFills [(⟨none, some 1⟩ : DepthAllItem), ⟨some 100, some 10⟩] 300 =
      [(0, 1), (100, 3)] := by
    norm_num [calcFills, parseOr0]
  have h4 : ((0:ℚ), 1) ∈ calcFills [(⟨none, some 1⟩ : DepthAllItem), ⟨some 100, some 10⟩] 300 := by
    rw [hfills]; exact List.mem_cons_self _ _
  have h6 : ∀ pq ∈ calcFills [(⟨none, some 1⟩ : DepthAllItem), ⟨some 100, some 10⟩] 300,
      0 ≤ pq.2 := by
    rw [hfills]; norm_num [List.forall_mem_cons]
  have h7 : ∀ pq ∈ calcFills [(⟨none, some 1⟩ : DepthAllItem), ⟨some 100, some 10⟩] 300,
      pq.1 ≤ 100 := by
    rw [hfills]; norm_num [List.forall_mem_cons]
  exact ⟨rfl, by norm_num [parseOr0], by norm_num, h4, by norm_num, h6, h7, by norm_num,
    C10_zero_price_levels_amended ⟨none, some 1⟩ [] 5 0 0 _ 300 1 100
      rfl (by norm_num [parseOr0]) (by norm_num) h4 (by norm_num) h6 h7 (by norm_num)⟩

end RustBinance
